import Mathlib

/-!
Verification of the Git State Reconciliation and Operation Orchestration
engine of the phastos repository.

The TypeScript sources shell out to git and capture process results.  The
shallow embedding models every external process interaction as a field of an
explicit environment record: each field holds the (decoded, trimmed) result
the process call would produce.  The functions below are direct translations
of the control flow of `src/services/GitService.ts` and
`src/controllers/OperationController.ts`; JavaScript peculiarities that the
code relies on (truthiness of empty strings, template literals rendering
`null`, stable `Array.prototype.sort`, `parseInt` fallback) are modelled
explicitly where the translated code exercises them.
-/

namespace Phastos

/-! ### Result records

`GitOperationResult` is the result record of `GitService` methods
(`src/services/GitService.ts`); `OperationResult` is the result record of the
`OperationController` (`src/controllers/OperationController.ts`).  Optional
string fields are `Option String`, with `none` for `undefined`. -/

structure GitOperationResult where
  success : Bool
  output : Option String
  error : Option String
deriving DecidableEq

structure OperationResult where
  success : Bool
  message : String
  error : Option String
deriving DecidableEq

/-! ### JavaScript string helpers

Branch names are `String`s; the JS operations used by the source are
implemented over the underlying character lists so that everything reduces
in the kernel. -/

/-- Boolean prefix test, modelling `String.prototype.startsWith` and the
anchored regex replacements of the source. -/
def strPrefixOf (p s : String) : Bool :=
  p.data.isPrefixOf s.data

/-- Strip one leading occurrence of `p`, modelling `s.replace(/^p/, "")`
for the literal anchored patterns `origin\/` and `changeset\/` used by
`GitService.getUnsyncedRemoteBranches` and
`OperationController.switchChangeset`. -/
def stripPrefixOnce (p s : String) : String :=
  if strPrefixOf p s then String.mk (s.data.drop p.data.length) else s

/-- Substring containment over character lists (needle found anywhere). -/
def containsSeq (needle : List Char) : List Char → Bool
  | [] => needle.isEmpty
  | c :: t => needle.isPrefixOf (c :: t) || containsSeq needle t

/-- Model of `branch.includes("HEAD")` in
`GitService.getUnsyncedRemoteBranches`. -/
def containsHEAD (s : String) : Bool :=
  containsSeq ("HEAD").data s.data

/-- Rendering of a nullable JS string inside a template literal:
`null` prints as the text `null`. -/
def jsShowNullable : Option String → String
  | some s => s
  | none => "null"

/-- JS `a || b` for a possibly absent and possibly empty string `a`:
`undefined` and `""` are falsy. -/
def jsOrDefault (o : Option String) (d : String) : String :=
  match o with
  | some s => if s = "" then d else s
  | none => d

/-- Message text of a caught JS exception as computed by every catch block of
the source: `error instanceof Error ? error.message : "Unknown error"`.
A thrown value is modelled as `some message` when it is an `Error` and
`none` when it is any other value. -/
def jsErrorMessage : Option String → String
  | some m => m
  | none => "Unknown error"

/-! ### GitService.getMainBranch (src/services/GitService.ts lines 102-121)

The source builds `possibleBranchNames = ["develop", "main", "master"]`,
prepends `configuredDefaultBranch` when that value is truthy (an empty
string is falsy in JS and is not prepended), and returns the first name for
which `doesBranchExist` answers true, else `undefined`.  The probe
`doesBranchExist` is modelled by the environment function `branchExists`. -/

def getMainBranch (branchExists : String → Bool)
    (configuredDefaultBranch : Option String) : Option String :=
  let possibleBranchNames : List String :=
    match configuredDefaultBranch with
    | some d =>
        if d = "" then ["develop", "main", "master"]
        else [d, "develop", "main", "master"]
    | none => ["develop", "main", "master"]
  possibleBranchNames.find? branchExists

/-! ### OperationController.executeSequence
(src/controllers/OperationController.ts lines 692-710; identical in the
earlier revision at lines 158-176)

`exec` models `this.execute(operation, project)` for the fixed project of
the call: `execute` is total (it catches every exception), so it is a plain
function into `OperationResult`. -/

def executeSequence (exec : α → OperationResult) (continueOnError : Bool) :
    List α → List OperationResult
  | [] => []
  | op :: rest =>
    let r := exec op
    if !r.success && !continueOnError then [r]
    else r :: executeSequence exec continueOnError rest

/-- Index of the first operation whose result fails, used to state the
stop-on-failure semantics. -/
def firstFailIdx (exec : α → OperationResult) : List α → Option Nat
  | [] => none
  | op :: rest =>
    if (exec op).success then (firstFailIdx exec rest).map (· + 1)
    else some 0

/-! ### GitService.getUnsyncedRemoteBranches
(src/services/GitService.ts lines 592-691)

The function shells out to `git fetch --prune` (result ignored), lists the
remote branches, lists the local branches, keeps the remote branches whose
name with one leading `origin/` stripped is not a local branch name, looks
up the newest commit timestamp of each survivor, and sorts descending by
that timestamp with `Array.prototype.sort`, which is stable, so branches
with equal timestamps keep the enumeration order of `git branch -r`.

The environment holds the decoded, trimmed, line-split outputs of the
process calls.  `commitTime b` is the `%ct` output of
`git log -1 --format=%ct b`: `none` models an empty output, and `logOk`
whether the log process exited successfully.  `tracking` records the
configured upstream of each local branch; the translated function never
reads it, it exists to state the tracking-branch claims. -/

structure RemoteRepoState where
  throws : Bool
  remoteOk : Bool
  remoteLines : List String
  localOk : Bool
  localLines : List String
  logOk : String → Bool
  commitTime : String → Option Nat
  tracking : String → Option String

/-- Pair of a branch name and the millisecond date computed for it by the
source (`parseInt(timestamp) * 1000`, with `0` for a missing timestamp or a
failed log process). -/
structure BranchDate where
  branch : String
  date : Nat
deriving DecidableEq

/-- Date assigned to a branch by the source: `timestamp ? parseInt(timestamp)
* 1000 : 0`, with `0` when the log process fails or throws. -/
def dateOf (st : RemoteRepoState) (b : String) : Nat :=
  if st.logOk b then
    match st.commitTime b with
    | some t => t * 1000
    | none => 0
  else 0

/-- One step of the stable descending insertion: an element moves past `y`
only when `y` has a strictly larger date, so elements with equal dates keep
their original relative order, exactly as the stable JS
`sort((a, b) => b.date - a.date)` behaves. -/
def insertByDateDesc (x : BranchDate) : List BranchDate → List BranchDate
  | [] => [x]
  | y :: ys => if y.date ≤ x.date then x :: y :: ys else y :: insertByDateDesc x ys

/-- Stable sort descending by date, the unique stable result of the
comparator `(a, b) => b.date - a.date` of the source. -/
def sortByDateDesc : List BranchDate → List BranchDate
  | [] => []
  | x :: xs => insertByDateDesc x (sortByDateDesc xs)

/-- Translation of `GitService.getUnsyncedRemoteBranches` with
`includeDate = false`: the returned list of branch names. -/
def getUnsyncedRemoteBranches (st : RemoteRepoState) : List String :=
  if st.throws then []
  else if !st.remoteOk then []
  else
    let remoteBranches :=
      st.remoteLines.filter (fun b => !(b = "") && !(containsHEAD b))
    if !st.localOk then remoteBranches
    else
      let localBranches := st.localLines.filter (fun b => !(b = ""))
      let unsyncedBranches := remoteBranches.filter
        (fun r => !(localBranches.contains (stripPrefixOnce "origin/" r)))
      let branchesWithDates :=
        unsyncedBranches.map (fun b => BranchDate.mk b (dateOf st b))
      (sortByDateDesc branchesWithDates).map (fun x => x.branch)

/-- Modelled from the spec: the local changesets with their tracking
branches.  The resolver half that produces this view
(`getChangesetsWithTracking` and the view-layer filter documented in the
repository) is not present under src/; following section 4.2 of the spec, a
local changeset is a local branch carrying the `changeset/` prefix, paired
with its configured upstream (`null` when no upstream is configured).  This
definition is used only to state the tracking-branch claims. -/
def localChangesets (st : RemoteRepoState) : List (String × Option String) :=
  ((st.localLines.filter (fun b => !(b = ""))).filter
    (fun b => strPrefixOf "changeset/" b)).map (fun b => (b, st.tracking b))

/-! ### GitService.getLastSyncFromMain
(src/services/GitService.ts lines 503-583)

The source runs `git log --format=%ct -1 mainBranch..HEAD`.  When that
output is empty it answers with the newest commit time of `mainBranch`
itself; otherwise it resolves the merge base of `mainBranch` and `HEAD` and
answers with the commit time of the merge base.  Timestamps are multiplied
by 1000 (`new Date(parseInt(t) * 1000)`); a date is modelled by its
millisecond value.  The environment fields hold the trimmed `%ct` outputs,
`none` for an empty output; `headEqMain` records whether `HEAD` and the
main branch point at the same commit — the code never consults it, it
exists to state the claim. -/

structure SyncEnv where
  logAheadOk : Bool
  aheadTime : Option Nat
  mainLogOk : Bool
  mainTime : Option Nat
  mergeBaseOk : Bool
  mergeBaseLogOk : Bool
  mergeBaseTime : Option Nat
  headEqMain : Bool

def getLastSyncFromMain (e : SyncEnv) : Option Nat :=
  if e.logAheadOk then
    match e.aheadTime with
    | none =>
        if e.mainLogOk then
          match e.mainTime with
          | some t => some (t * 1000)
          | none => none
        else none
    | some _ =>
        if e.mergeBaseOk then
          if e.mergeBaseLogOk then
            match e.mergeBaseTime with
            | some t => some (t * 1000)
            | none => none
          else none
        else none
  else none

/-! ### GitService.getBranchDivergence
(src/services/GitService.ts lines 699-728)

The source runs `git rev-list --left-right --count mainBranch...HEAD`,
splits the trimmed output on a tab, maps `parseInt(n) || 0` over the split
fields and destructures `[behind, ahead]`.  When the split yields fewer
than two fields the destructured `ahead` is `undefined`; the result
fields are therefore `Option Int` with `none` for `undefined`. -/

structure Divergence where
  ahead : Option Int
  behind : Option Int
deriving DecidableEq

structure DivEnv where
  throws : Bool
  revListOk : Bool
  revListOut : String

/-- JS `parseInt`: skip leading whitespace, optional sign, then decimal
digits; `none` models `NaN` (no digits). -/
def jsParseInt (s : String) : Option Int :=
  let cs := s.data.dropWhile (fun c => c.isWhitespace)
  let signAndRest : Int × List Char :=
    match cs with
    | '-' :: r => (-1, r)
    | '+' :: r => (1, r)
    | _ => (1, cs)
  let digits := signAndRest.2.takeWhile (fun c => c.isDigit)
  if digits.isEmpty then none
  else some (signAndRest.1 *
    (digits.foldl (fun acc c => acc * 10 + (c.toNat - 48)) 0 : Nat))

/-- JS `parseInt(n) || 0`: both `NaN` and `0` collapse to `0`. -/
def jsParseIntOr0 (s : String) : Int :=
  match jsParseInt s with
  | some n => n
  | none => 0

/-- JS `String.prototype.split` with a single-character separator. -/
def splitCharAux (sep : Char) : List Char → List Char → List (List Char)
  | [], acc => [acc.reverse]
  | c :: cs, acc =>
      if c = sep then acc.reverse :: splitCharAux sep cs []
      else splitCharAux sep cs (c :: acc)

def jsSplit (sep : Char) (s : String) : List String :=
  (splitCharAux sep s.data []).map String.mk

def getBranchDivergence (e : DivEnv) : Divergence :=
  if e.throws then { ahead := some 0, behind := some 0 }
  else if e.revListOk then
    let parsed := (jsSplit '\t' e.revListOut).map jsParseIntOr0
    { ahead := parsed.get? 1, behind := parsed.get? 0 }
  else { ahead := some 0, behind := some 0 }

/-! ### OperationController.execute
(src/controllers/OperationController.ts lines 567-682)

The operation type tag of the source is a string from a closed set; the
`default` case of the switch receives every other tag.  Each delegate
handler is modelled as an `Except` value: `Except.error e` models the
handler throwing the JS value `e` (`some message` for an `Error` instance,
`none` for any other thrown value); `Except.ok r` models a normal return.
The try block spans the whole switch, so a thrown value from any delegate
reaches the single catch, which builds
`{success: false, message: "Operation failed", error: errorMsg}`. -/

inductive OpType where
  | clean_slate
  | fresh
  | switch_changeset
  | save
  | update
  | install
  | build
  | test
  | run
  | reset
  | pod_install
  | run_script
  | custom
  | unknown (tag : String)
deriving DecidableEq

structure ExecEnv where
  cleanSlateH : Except (Option String) OperationResult
  freshH : Except (Option String) OperationResult
  switchChangesetH : Except (Option String) OperationResult
  saveH : Except (Option String) OperationResult
  updateH : Except (Option String) OperationResult
  installH : Except (Option String) OperationResult
  buildH : Except (Option String) OperationResult
  testH : Except (Option String) OperationResult
  runH : Except (Option String) OperationResult
  resetH : Except (Option String) OperationResult
  podInstallH : Except (Option String) OperationResult
  runScriptH : Except (Option String) OperationResult
  customH : Except (Option String) OperationResult

/-- Body of the switch statement: the delegate invoked for each operation
type, or the literal failure result of the `default` branch. -/
def dispatch (env : ExecEnv) : OpType → Except (Option String) OperationResult
  | .clean_slate => env.cleanSlateH
  | .fresh => env.freshH
  | .switch_changeset => env.switchChangesetH
  | .save => env.saveH
  | .update => env.updateH
  | .install => env.installH
  | .build => env.buildH
  | .test => env.testH
  | .run => env.runH
  | .reset => env.resetH
  | .pod_install => env.podInstallH
  | .run_script => env.runScriptH
  | .custom => env.customH
  | .unknown tag =>
      Except.ok { success := false,
                  message := "Unknown operation type: " ++ tag,
                  error := none }

def execute (env : ExecEnv) (t : OpType) : OperationResult :=
  match dispatch env t with
  | Except.ok r => r
  | Except.error e =>
      { success := false, message := "Operation failed",
        error := some (jsErrorMessage e) }

/-! ### Git mutation calls

Trace of the mutating `gitService` calls a workflow performs, in order.
`update` covers `gitService.update(wd, branch)`, which internally checks
out `branch` and runs `git pull --rebase`. -/

inductive GitCall where
  | stash (name : String)
  | switchTo (branch : String)
  | update (branch : Option String)
  | create (branch : String)
  | checkoutRemote (remoteBranch : String) (localBranch : String)
deriving DecidableEq

/-- True exactly on stash calls. -/
def GitCall.isStash : GitCall → Bool
  | .stash _ => true
  | _ => false

/-- True exactly on the calls the fresh workflow must not reach when the
main branch is unresolvable: branch switches and pulls. -/
def GitCall.isSwitchOrUpdate : GitCall → Bool
  | .switchTo _ => true
  | .update _ => true
  | _ => false

/-! ### OperationController.freshChangeset
(src/controllers/OperationController.ts lines 1009-1139)

The environment captures the results the git service calls would produce.
`branchExists` backs both `getMainBranch` and the later
`doesBranchExist(workingDir, branchName)` probe.  `now` models
`Date.now()`.  Note the source line
`const isClean = await gitService.hasUncommittedChanges(workingDir)`:
the variable named `isClean` holds the has-uncommitted-changes answer, and
the stash branch is guarded by `if (!isClean)`, so the translation below
stashes exactly when `hasUncommitted` is false. -/

structure FreshEnv where
  currentBranch : Option String
  hasUncommitted : Bool
  stashResult : GitOperationResult
  branchExists : String → Bool
  switchResult : String → GitOperationResult
  updateResult : GitOperationResult
  createResult : String → GitOperationResult
  now : Nat

/-- Tail of the fresh workflow after the changeset branch name is fixed:
check existence, then switch to it or create it. -/
def freshBranchStep (env : FreshEnv) (changesetId : String) (tr : List GitCall) :
    OperationResult × List GitCall :=
  let branchName := "changeset/" ++ changesetId
  if env.branchExists branchName then
    let r := env.switchResult branchName
    let tr := tr ++ [GitCall.switchTo branchName]
    if !r.success then
      ({ success := false, message := "Failed to switch to changeset branch",
         error := r.error }, tr)
    else
      ({ success := true, message := "Changeset created/started successfully",
         error := none }, tr)
  else
    let r := env.createResult branchName
    let tr := tr ++ [GitCall.create branchName]
    if !r.success then
      ({ success := false, message := "Failed to create changeset branch",
         error := r.error }, tr)
    else
      ({ success := true, message := "Changeset created/started successfully",
         error := none }, tr)

/-- Pull step of the fresh workflow (`gitService.update(workingDir,
mainBranchName)`), then the changeset branch step. -/
def freshUpdateStep (env : FreshEnv) (changesetId mainBranchName : String)
    (tr : List GitCall) : OperationResult × List GitCall :=
  let u := env.updateResult
  let tr := tr ++ [GitCall.update (some mainBranchName)]
  if !u.success then
    ({ success := false, message := "Failed to update to latest changes",
       error := u.error }, tr)
  else freshBranchStep env changesetId tr

/-- Middle of the fresh workflow, from main-branch resolution onward: the
switch to main happens only when the captured current branch differs from
the resolved main branch name (JS strict inequality, never equal when the
current branch is `null`). -/
def freshMainStep (env : FreshEnv) (cfgDefaultBranch : Option String)
    (changesetId : String) (tr : List GitCall) :
    OperationResult × List GitCall :=
  match getMainBranch env.branchExists cfgDefaultBranch with
  | none =>
      ({ success := false, message := "Main branch not found", error := none }, tr)
  | some mainBranchName =>
      if env.currentBranch ≠ some mainBranchName then
        let r := env.switchResult mainBranchName
        let tr := tr ++ [GitCall.switchTo mainBranchName]
        if !r.success then
          ({ success := false, message := "Failed to switch to main branch",
             error := r.error }, tr)
        else freshUpdateStep env changesetId mainBranchName tr
      else freshUpdateStep env changesetId mainBranchName tr

/-- Translation of `OperationController.freshChangeset`. -/
def freshChangeset (env : FreshEnv) (cfgDefaultBranch : Option String)
    (changesetName : Option String) : OperationResult × List GitCall :=
  let changesetId := jsOrDefault changesetName "new-changeset"
  let isClean := env.hasUncommitted
  if !isClean then
    let stashName :=
      "wip-" ++ jsShowNullable env.currentBranch ++ "-" ++ toString env.now
    let res := env.stashResult
    let tr := [GitCall.stash stashName]
    if !res.success then
      ({ success := false, message := "Failed to stash changes",
         error := res.error }, tr)
    else freshMainStep env cfgDefaultBranch changesetId tr
  else freshMainStep env cfgDefaultBranch changesetId []

/-! ### OperationController.switchChangeset
(src/controllers/OperationController.ts lines 1148-1245) -/

structure SwitchEnv where
  currentBranch : Option String
  hasUncommitted : Bool
  stashResult : GitOperationResult
  switchResult : String → GitOperationResult
  checkoutRemoteResult : String → String → GitOperationResult
  now : Nat

structure SwitchParams where
  branchName : Option String
  branchType : Option String

/-- Local branch name derived from a remote branch name: strip one leading
`origin/`, strip one leading `changeset/`, prepend `changeset/`. -/
def deriveLocalBranchName (remoteBranch : String) : String :=
  let branchName := stripPrefixOnce "origin/" remoteBranch
  let branchName := stripPrefixOnce "changeset/" branchName
  "changeset/" ++ branchName

/-- Branch-switching tail of `switchChangeset`, after the optional stash. -/
def switchBranchStep (env : SwitchEnv) (params : SwitchParams) (bn : String)
    (tr : List GitCall) : OperationResult × List GitCall :=
  let branchType := jsOrDefault params.branchType "local"
  if branchType = "local" then
    let r := env.switchResult bn
    ({ success := r.success,
       message := jsOrDefault r.output ("Switched to " ++ bn),
       error := r.error }, tr ++ [GitCall.switchTo bn])
  else
    let localBranchName := deriveLocalBranchName bn
    let r := env.checkoutRemoteResult bn localBranchName
    ({ success := r.success,
       message := jsOrDefault r.output ("Created changeset " ++ localBranchName),
       error := r.error }, tr ++ [GitCall.checkoutRemote bn localBranchName])

/-- Translation of `OperationController.switchChangeset`. -/
def switchChangeset (env : SwitchEnv) (params : SwitchParams) :
    OperationResult × List GitCall :=
  match params.branchName with
  | none => ({ success := false, message := "Branch name is required",
               error := none }, [])
  | some bn =>
    if bn = "" then
      ({ success := false, message := "Branch name is required",
         error := none }, [])
    else if env.hasUncommitted then
      let stashName := "auto-stash-before-switch-" ++
        jsShowNullable env.currentBranch ++ "-" ++ toString env.now
      if !env.stashResult.success then
        ({ success := false, message := "Failed to stash uncommitted changes",
           error := env.stashResult.error }, [GitCall.stash stashName])
      else switchBranchStep env params bn [GitCall.stash stashName]
    else switchBranchStep env params bn []

/-! ### Branch-name order

Lexicographic order on branch names by character code, the order in which
`git branch -r --format=%(refname:short)` emits refs (git sorts output by
refname).  Used to state the determinism claim about equal-timestamp
branches. -/

def chLt : List Char → List Char → Bool
  | [], [] => false
  | [], _ :: _ => true
  | _ :: _, [] => false
  | a :: as, b :: bs =>
      if a.val < b.val then true
      else if b.val < a.val then false
      else chLt as bs

def nameLt (a b : String) : Bool :=
  chLt a.data b.data

/-- Order produced by the stable descending-by-date sort when fed a list in
ascending name order: strictly newer first, ties in ascending name order. -/
def branchBefore (x y : BranchDate) : Prop :=
  y.date < x.date ∨ (x.date = y.date ∧ nameLt x.branch y.branch = true)

/-! ### Concrete states used by witnesses and counterexamples -/

/-- Executor in which every operation fails. -/
def failExec : Unit → OperationResult :=
  fun _ => { success := false, message := "boom", error := none }

/-- Executor over numbered operations that fails exactly on operation 1. -/
def seqExecW : Nat → OperationResult :=
  fun n =>
    if n = 1 then { success := false, message := "failed", error := some "e" }
    else { success := true, message := "ok", error := none }

/-- Existence probe of a repository whose only branch is `master`. -/
def branchExistsW : String → Bool :=
  fun b => b = "master"

/-- Executor environment whose build delegate throws an `Error`. -/
def execEnvW : ExecEnv :=
  { cleanSlateH := Except.ok { success := true, message := "ok", error := none },
    freshH := Except.ok { success := true, message := "ok", error := none },
    switchChangesetH := Except.ok { success := true, message := "ok", error := none },
    saveH := Except.ok { success := true, message := "ok", error := none },
    updateH := Except.ok { success := true, message := "ok", error := none },
    installH := Except.ok { success := true, message := "ok", error := none },
    buildH := Except.error (some "spawn failed"),
    testH := Except.ok { success := true, message := "ok", error := none },
    runH := Except.ok { success := true, message := "ok", error := none },
    resetH := Except.ok { success := true, message := "ok", error := none },
    podInstallH := Except.ok { success := true, message := "ok", error := none },
    runScriptH := Except.ok { success := true, message := "ok", error := none },
    customH := Except.ok { success := true, message := "ok", error := none } }

/-- Fresh-workflow environment of a repository with uncommitted changes, on
branch `feature/x`, where every git call would succeed. -/
def freshDirtyEnv : FreshEnv :=
  { currentBranch := some "feature/x",
    hasUncommitted := true,
    stashResult := { success := true, output := none, error := none },
    branchExists := fun b => b = "develop",
    switchResult := fun _ => { success := true, output := none, error := none },
    updateResult := { success := true, output := none, error := none },
    createResult := fun _ => { success := true, output := none, error := none },
    now := 7 }

/-- Same repository with a clean working tree. -/
def freshCleanEnv : FreshEnv :=
  { currentBranch := some "feature/x",
    hasUncommitted := false,
    stashResult := { success := true, output := none, error := none },
    branchExists := fun b => b = "develop",
    switchResult := fun _ => { success := true, output := none, error := none },
    updateResult := { success := true, output := none, error := none },
    createResult := fun _ => { success := true, output := none, error := none },
    now := 7 }

/-- Fresh-workflow environment of a repository with no branch at all. -/
def freshNoMainEnv : FreshEnv :=
  { currentBranch := some "feature/x",
    hasUncommitted := true,
    stashResult := { success := true, output := none, error := none },
    branchExists := fun _ => false,
    switchResult := fun _ => { success := true, output := none, error := none },
    updateResult := { success := true, output := none, error := none },
    createResult := fun _ => { success := true, output := none, error := none },
    now := 7 }

/-- Switch-workflow environment with a clean working tree. -/
def switchEnvW : SwitchEnv :=
  { currentBranch := some "develop",
    hasUncommitted := false,
    stashResult := { success := true, output := none, error := none },
    switchResult := fun _ => { success := true, output := none, error := none },
    checkoutRemoteResult := fun _ _ =>
      { success := true, output := none, error := none },
    now := 7 }

/-- Sync state of a repository whose HEAD is strictly behind main: the
two-commit chain c1 (time 100) -> c2 (time 200) with HEAD = c1 and
main = c2.  `mainBranch..HEAD` is empty, the merge base is c1 itself. -/
def syncBehindEnv : SyncEnv :=
  { logAheadOk := true, aheadTime := none,
    mainLogOk := true, mainTime := some 200,
    mergeBaseOk := true, mergeBaseLogOk := true, mergeBaseTime := some 100,
    headEqMain := false }

/-- Sync state of a repository whose HEAD has one commit (time 300) not on
main; the merge base carries time 150. -/
def syncAheadEnv : SyncEnv :=
  { logAheadOk := true, aheadTime := some 300,
    mainLogOk := true, mainTime := some 200,
    mergeBaseOk := true, mergeBaseLogOk := true, mergeBaseTime := some 150,
    headEqMain := false }

/-- Divergence query that exits successfully with unparseable output
containing no tab. -/
def divGarbageEnv : DivEnv :=
  { throws := false, revListOk := true, revListOut := "garbage" }

/-- Divergence query that exits successfully with two unparseable
tab-separated fields. -/
def divTabEnv : DivEnv :=
  { throws := false, revListOk := true, revListOut := "x\ty" }

/-- Repository in which the local changeset `changeset/feature-a` tracks the
remote branch `origin/feature/new-ui` (an upstream whose stripped name
differs from every local branch name). -/
def trackedRemoteState : RemoteRepoState :=
  { throws := false, remoteOk := true,
    remoteLines := ["origin/feature/new-ui"],
    localOk := true,
    localLines := ["changeset/feature-a"],
    logOk := fun _ => true,
    commitTime := fun _ => some 1,
    tracking := fun b =>
      if b = "changeset/feature-a" then some "origin/feature/new-ui"
      else none }

/-- Repository with two remote branches, one of which is synced locally. -/
def remoteStateW : RemoteRepoState :=
  { throws := false, remoteOk := true,
    remoteLines := ["origin/alpha", "origin/hotfix"],
    localOk := true,
    localLines := ["alpha"],
    logOk := fun _ => true,
    commitTime := fun _ => some 1,
    tracking := fun _ => none }

/-- Repository with two unsynced remote branches carrying equal commit
timestamps, enumerated in ascending name order. -/
def remoteTieState : RemoteRepoState :=
  { throws := false, remoteOk := true,
    remoteLines := ["origin/aaa", "origin/bbb"],
    localOk := true,
    localLines := [],
    logOk := fun _ => true,
    commitTime := fun _ => some 5,
    tracking := fun _ => none }

/-! ## Theorems -/

/-! ### Sequence orchestration lemmas -/

theorem executeSequence_true_eq_map (exec : α → OperationResult) (ops : List α) :
    executeSequence exec true ops = ops.map exec := by
  induction ops with
  | nil => rfl
  | cons op rest ih => simp [executeSequence, ih]

theorem executeSequence_false_of_none (exec : α → OperationResult) (ops : List α)
    (h : firstFailIdx exec ops = none) :
    executeSequence exec false ops = ops.map exec := by
  induction ops with
  | nil => rfl
  | cons op rest ih =>
    unfold firstFailIdx at h
    by_cases hs : (exec op).success
    · rw [if_pos hs] at h
      simp only [Option.map_eq_none'] at h
      simp [executeSequence, hs, ih h]
    · rw [if_neg hs] at h
      exact absurd h (by simp)

theorem firstFailIdx_get (exec : α → OperationResult) (ops : List α) (k : Nat)
    (h : firstFailIdx exec ops = some k) :
    ∃ r, (ops.map exec).get? k = some r ∧ r.success = false := by
  induction ops generalizing k with
  | nil => exact absurd h (by simp [firstFailIdx])
  | cons op rest ih =>
    unfold firstFailIdx at h
    by_cases hs : (exec op).success
    · rw [if_pos hs] at h
      obtain ⟨k₀, hk₀, rfl⟩ := Option.map_eq_some'.mp h
      obtain ⟨r, hr, hrs⟩ := ih k₀ hk₀
      exact ⟨r, by simpa using hr, hrs⟩
    · rw [if_neg hs] at h
      obtain rfl : k = 0 := by simpa using h.symm
      exact ⟨exec op, by simp, by simpa using hs⟩

theorem executeSequence_false_of_some (exec : α → OperationResult) (ops : List α)
    (k : Nat) (h : firstFailIdx exec ops = some k) :
    executeSequence exec false ops = (ops.map exec).take (k + 1) := by
  induction ops generalizing k with
  | nil => exact absurd h (by simp [firstFailIdx])
  | cons op rest ih =>
    unfold firstFailIdx at h
    by_cases hs : (exec op).success
    · rw [if_pos hs] at h
      obtain ⟨k₀, hk₀, rfl⟩ := Option.map_eq_some'.mp h
      simp [executeSequence, hs, ih k₀ hk₀]
    · rw [if_neg hs] at h
      obtain rfl : k = 0 := by simpa using h.symm
      simp [executeSequence, hs]

theorem getLast?_cons_of_ne_nil (x : β) (l : List β) (h : l ≠ []) :
    (x :: l).getLast? = l.getLast? := by
  cases l with
  | nil => exact absurd rfl h
  | cons y ys => rfl

theorem executeSequence_false_getLast (exec : α → OperationResult) (ops : List α)
    (k : Nat) (h : firstFailIdx exec ops = some k) :
    (executeSequence exec false ops).getLast? = (ops.map exec).get? k := by
  induction ops generalizing k with
  | nil => exact absurd h (by simp [firstFailIdx])
  | cons op rest ih =>
    unfold firstFailIdx at h
    by_cases hs : (exec op).success
    · rw [if_pos hs] at h
      obtain ⟨k₀, hk₀, rfl⟩ := Option.map_eq_some'.mp h
      have hne : executeSequence exec false rest ≠ [] := by
        have := executeSequence_false_of_some exec rest k₀ hk₀
        intro hnil
        rw [hnil] at this
        have : rest = [] := by
          cases rest with
          | nil => rfl
          | cons a l => simp at this
        subst this
        exact absurd hk₀ (by simp [firstFailIdx])
      simp only [executeSequence, hs]
      rw [if_neg (by simp [hs])]
      rw [getLast?_cons_of_ne_nil _ _ hne, ih k₀ hk₀]
      simp
    · rw [if_neg hs] at h
      obtain rfl : k = 0 := by simpa using h.symm
      simp [executeSequence, hs]

/-- Claim C4 (amended): with `continueOnError = true` every operation runs
and the result list maps the whole input; with `continueOnError = false`
execution is in list order and stops at the first failing operation — the
result list is the prefix of the per-operation results ending at the first
failure (the entire list when nothing fails), its last element is the
failing result, and it is strictly shorter than the input exactly when the
first failure is not the last operation. -/
theorem executeSequence_semantics (exec : α → OperationResult) (ops : List α) :
    executeSequence exec true ops = ops.map exec ∧
    (firstFailIdx exec ops = none →
      executeSequence exec false ops = ops.map exec) ∧
    (∀ k, firstFailIdx exec ops = some k →
      executeSequence exec false ops = (ops.map exec).take (k + 1) ∧
      (executeSequence exec false ops).getLast? = (ops.map exec).get? k ∧
      (∃ r, (ops.map exec).get? k = some r ∧ r.success = false) ∧
      ((executeSequence exec false ops).length < ops.length ↔ k + 1 < ops.length)) := by
  refine ⟨executeSequence_true_eq_map exec ops,
          executeSequence_false_of_none exec ops, ?_⟩
  intro k hk
  refine ⟨executeSequence_false_of_some exec ops k hk,
          executeSequence_false_getLast exec ops k hk,
          firstFailIdx_get exec ops k hk, ?_⟩
  rw [executeSequence_false_of_some exec ops k hk]
  simp only [List.length_take, List.length_map]
  omega

/-- Claim C4 counterexample: when the single operation of the list fails,
the stop-on-failure result has the same length as the input — it is the
whole per-operation result list, not a proper prefix of it. -/
theorem executeSequence_counterexample :
    (∃ op ∈ [()], (failExec op).success = false) ∧
    ¬ (executeSequence failExec false [()]).length <
        (([()]).map failExec).length := by
  decide

/-- Witness for `executeSequence_semantics` at a three-operation list whose
middle operation fails. -/
theorem executeSequence_semantics_witness :
    firstFailIdx seqExecW [0, 1, 2] = some 1 ∧
    executeSequence seqExecW false [0, 1, 2] =
      (([0, 1, 2]).map seqExecW).take 2 ∧
    (executeSequence seqExecW false [0, 1, 2]).length = 2 := by
  have h := (executeSequence_semantics seqExecW [0, 1, 2]).2.2 1 (by decide)
  exact ⟨by decide, h.1, by decide⟩

/-! ### Main-branch resolution -/

/-- Claim C8: `getMainBranch` probes the configured hint first (when one is
given), then `develop`, `main`, `master`, answers the first name that
exists, and answers `none` when no candidate exists. -/
theorem getMainBranch_probe_order (branchExists : String → Bool) (hint : String)
    (hhint : hint ≠ "") :
    (branchExists hint = true →
      getMainBranch branchExists (some hint) = some hint) ∧
    (branchExists hint = false → branchExists "develop" = true →
      getMainBranch branchExists (some hint) = some "develop") ∧
    (branchExists hint = false → branchExists "develop" = false →
      branchExists "main" = true →
      getMainBranch branchExists (some hint) = some "main") ∧
    (branchExists hint = false → branchExists "develop" = false →
      branchExists "main" = false → branchExists "master" = true →
      getMainBranch branchExists (some hint) = some "master") ∧
    (branchExists hint = false → branchExists "develop" = false →
      branchExists "main" = false → branchExists "master" = false →
      getMainBranch branchExists (some hint) = none) ∧
    (getMainBranch branchExists none =
      (["develop", "main", "master"]).find? branchExists) := by
  refine ⟨?_, ?_, ?_, ?_, ?_, rfl⟩ <;>
    · intros
      simp_all [getMainBranch, List.find?]

/-- Witness for `getMainBranch_probe_order`: a repository whose only branch
is `master`, probed with the hint `trunk`. -/
theorem getMainBranch_probe_order_witness :
    ("trunk" : String) ≠ "" ∧
    getMainBranch branchExistsW (some "trunk") = some "master" :=
  ⟨by decide,
   (getMainBranch_probe_order branchExistsW "trunk" (by decide)).2.2.2.1
     (by decide) (by decide) (by decide) (by decide)⟩

/-! ### Executor error boundary -/

/-- Claim C6: a delegate handler that throws never escapes `execute`: the
thrown value is converted into a failure result whose message is exactly
`Operation failed` and whose error field preserves the message of the
thrown `Error`. -/
theorem execute_catches_delegate_throw (env : ExecEnv) (t : OpType)
    (e : Option String) (h : dispatch env t = Except.error e) :
    execute env t = { success := false, message := "Operation failed",
                      error := some (jsErrorMessage e) } ∧
    (∀ m, e = some m →
      execute env t =
        { success := false, message := "Operation failed", error := some m }) := by
  constructor
  · unfold execute
    rw [h]
  · intro m hm
    subst hm
    unfold execute
    rw [h]
    rfl

/-- Witness for `execute_catches_delegate_throw`: the build delegate throws
an `Error` with message `spawn failed`. -/
theorem execute_catches_delegate_throw_witness :
    dispatch execEnvW OpType.build = Except.error (some "spawn failed") ∧
    execute execEnvW OpType.build =
      { success := false, message := "Operation failed",
        error := some "spawn failed" } :=
  ⟨rfl, (execute_catches_delegate_throw execEnvW OpType.build
          (some "spawn failed") rfl).2 "spawn failed" rfl⟩

/-! ### String lemmas -/

theorem stripPrefixOnce_of_append (p : String) (t : List Char) :
    stripPrefixOnce p (String.mk (p.data ++ t)) = String.mk t := by
  have hpre : strPrefixOf p (String.mk (p.data ++ t)) = true := by
    simp [strPrefixOf, List.isPrefixOf_iff_prefix]
  simp [stripPrefixOnce, hpre]

theorem deriveLocalBranchName_on_origin_changeset (s : String) :
    deriveLocalBranchName ("origin/changeset/" ++ s) = "changeset/" ++ s := by
  cases s with
  | mk d =>
    have h1 : ("origin/changeset/" ++ String.mk d : String) =
        String.mk (("origin/").data ++ (("changeset/").data ++ d)) := rfl
    simp only [deriveLocalBranchName, h1]
    rw [stripPrefixOnce_of_append ("origin/") (("changeset/").data ++ d),
        stripPrefixOnce_of_append ("changeset/") d]

/-! ### Fresh workflow -/

/-- Claim C2 (code-bug evaluation): the source line
`const isClean = await gitService.hasUncommittedChanges(workingDir)` stores
the has-uncommitted-changes answer in a variable named `isClean`, and the
stash is guarded by `if (!isClean)`, so the workflow evaluated at a dirty
repository performs no stash at all and proceeds to switch and pull, while
evaluated at a clean repository it does create a stash. -/
theorem freshChangeset_stash_guard_inverted :
    freshDirtyEnv.hasUncommitted = true ∧
    ((freshChangeset freshDirtyEnv none (some "x")).2.all
      (fun c => !(GitCall.isStash c))) = true ∧
    freshCleanEnv.hasUncommitted = false ∧
    ((freshChangeset freshCleanEnv none (some "x")).2.any GitCall.isStash)
      = true := by
  decide

/-- Claim C9: when neither `develop`, `main`, `master` nor the configured
default branch exists, the fresh workflow fails and never switches
branches and never pulls. -/
theorem freshChangeset_aborts_without_main (env : FreshEnv) (cfg cs : Option String)
    (hd : env.branchExists "develop" = false)
    (hm : env.branchExists "main" = false)
    (hma : env.branchExists "master" = false)
    (hc : ∀ d, cfg = some d → env.branchExists d = false) :
    (freshChangeset env cfg cs).1.success = false ∧
    ((freshChangeset env cfg cs).2.all
      (fun c => !(GitCall.isSwitchOrUpdate c))) = true := by
  have hmain : getMainBranch env.branchExists cfg = none := by
    unfold getMainBranch
    cases cfg with
    | none => simp [List.find?, hd, hm, hma]
    | some d =>
      by_cases hdq : d = ""
      · simp [hdq, List.find?, hd, hm, hma]
      · simp [hdq, List.find?, hd, hm, hma, hc d rfl]
  unfold freshChangeset
  cases hu : env.hasUncommitted with
  | true => simp [hu, freshMainStep, hmain]
  | false =>
    cases hss : env.stashResult.success with
    | false => simp [hu, hss, GitCall.isSwitchOrUpdate]
    | true => simp [hu, hss, freshMainStep, hmain, GitCall.isSwitchOrUpdate]

/-- Witness for `freshChangeset_aborts_without_main`: a repository with no
branches at all, probed with the configured default `trunk`. -/
theorem freshChangeset_aborts_without_main_witness :
    (freshChangeset freshNoMainEnv (some "trunk") none).1.success = false ∧
    ((freshChangeset freshNoMainEnv (some "trunk") none).2.all
      (fun c => !(GitCall.isSwitchOrUpdate c))) = true :=
  freshChangeset_aborts_without_main freshNoMainEnv (some "trunk") none
    rfl rfl rfl (fun d h => by injection h with h2; subst h2; rfl)

/-! ### Switch workflow -/

/-- Claim C5: switching to a remote branch checks it out under the local
name obtained by stripping one leading `origin/` and one leading
`changeset/` and prepending exactly one `changeset/`; on an already
prefixed name `origin/changeset/x` the derived local name is
`changeset/x`, never `changeset/changeset/x`. -/
theorem switchChangeset_remote_prefix (env : SwitchEnv) (bn : String)
    (hbn : bn ≠ "")
    (hst : env.hasUncommitted = false ∨ env.stashResult.success = true) :
    GitCall.checkoutRemote bn (deriveLocalBranchName bn) ∈
      (switchChangeset env
        { branchName := some bn, branchType := some "remote" }).2 ∧
    (∀ s : String,
      deriveLocalBranchName ("origin/changeset/" ++ s) = "changeset/" ++ s) ∧
    deriveLocalBranchName "origin/changeset/foo" = "changeset/foo" := by
  refine ⟨?_, deriveLocalBranchName_on_origin_changeset, by decide⟩
  cases hu : env.hasUncommitted with
  | false => simp [switchChangeset, hbn, hu, switchBranchStep, jsOrDefault]
  | true =>
    have hss : env.stashResult.success = true := by
      rcases hst with h | h
      · rw [hu] at h
        exact absurd h (by simp)
      · exact h
    simp [switchChangeset, hbn, hu, hss, switchBranchStep, jsOrDefault]

/-- Witness for `switchChangeset_remote_prefix` at the branch name
`origin/changeset/foo` on a clean working tree. -/
theorem switchChangeset_remote_prefix_witness :
    GitCall.checkoutRemote "origin/changeset/foo"
        (deriveLocalBranchName "origin/changeset/foo") ∈
      (switchChangeset switchEnvW
        { branchName := some "origin/changeset/foo",
          branchType := some "remote" }).2 ∧
    deriveLocalBranchName "origin/changeset/foo" = "changeset/foo" := by
  have h := switchChangeset_remote_prefix switchEnvW "origin/changeset/foo"
    (by decide) (Or.inl rfl)
  exact ⟨h.1, h.2.2⟩

/-! ### Last sync from main -/

/-- Claim C3 counterexample: HEAD strictly behind main (no commits ahead of
the merge base, HEAD not equal to main, merge-base commit time 100, main
tip time 200): the function answers the main tip time, not the merge-base
commit time. -/
theorem getLastSyncFromMain_counterexample :
    syncBehindEnv.headEqMain = false ∧
    syncBehindEnv.aheadTime = none ∧
    syncBehindEnv.mergeBaseTime = some 100 ∧
    getLastSyncFromMain syncBehindEnv = some (200 * 1000) ∧
    getLastSyncFromMain syncBehindEnv ≠
      Option.map (fun t => t * 1000) syncBehindEnv.mergeBaseTime := by
  decide

/-- Claim C3 (amended): whenever `mainBranch..HEAD` is empty — whether or
not HEAD equals the main branch — the function falls back to the newest
commit time of the main branch itself; the merge-base commit time is
answered exactly when HEAD has at least one commit not on main. -/
theorem getLastSyncFromMain_fallback (e : SyncEnv)
    (h1 : e.logAheadOk = true) (h2 : e.mainLogOk = true)
    (h3 : e.mergeBaseOk = true) (h4 : e.mergeBaseLogOk = true) :
    (e.aheadTime = none →
      getLastSyncFromMain e = Option.map (fun t => t * 1000) e.mainTime) ∧
    (e.aheadTime ≠ none →
      getLastSyncFromMain e = Option.map (fun t => t * 1000) e.mergeBaseTime) := by
  constructor
  · intro h
    cases hm : e.mainTime <;> simp [getLastSyncFromMain, h1, h2, h, hm]
  · intro h
    cases ha : e.aheadTime with
    | none => exact absurd ha h
    | some t0 =>
      cases hm : e.mergeBaseTime <;>
        simp [getLastSyncFromMain, h1, h3, h4, ha, hm]

/-- Witness for `getLastSyncFromMain_fallback`: one commit ahead of main,
merge base at time 150. -/
theorem getLastSyncFromMain_fallback_witness :
    syncAheadEnv.aheadTime ≠ none ∧
    getLastSyncFromMain syncAheadEnv = some (150 * 1000) := by
  refine ⟨by decide, ?_⟩
  have h := (getLastSyncFromMain_fallback syncAheadEnv rfl rfl rfl rfl).2
    (by decide)
  rw [h]
  rfl

/-! ### Branch divergence -/

theorem splitCharAux_no_sep (sep : Char) (l : List Char) (acc : List Char)
    (h : sep ∉ l) :
    splitCharAux sep l acc = [acc.reverse ++ l] := by
  induction l generalizing acc with
  | nil => simp [splitCharAux]
  | cons c cs ih =>
    have hc : ¬ c = sep := fun hq => h (hq ▸ List.mem_cons_self c cs)
    simp only [splitCharAux, hc, if_neg, ite_false]
    rw [ih (c :: acc) (fun hm => h (List.mem_cons_of_mem c hm))]
    simp

theorem splitCharAux_append_sep (sep : Char) (xs ys : List Char)
    (acc : List Char) (hx : sep ∉ xs) :
    splitCharAux sep (xs ++ sep :: ys) acc =
      (acc.reverse ++ xs) :: splitCharAux sep ys [] := by
  induction xs generalizing acc with
  | nil => simp [splitCharAux]
  | cons c cs ih =>
    have hc : ¬ c = sep := fun hq => hx (hq ▸ List.mem_cons_self c cs)
    simp only [List.cons_append, splitCharAux, hc, if_neg, ite_false,
      List.append_eq]
    rw [ih (c :: acc) (fun hm => hx (List.mem_cons_of_mem c hm))]
    simp

theorem jsSplit_two_fields (sep : Char) (a b : String)
    (ha : sep ∉ a.data) (hb : sep ∉ b.data) :
    jsSplit sep (String.mk (a.data ++ sep :: b.data)) = [a, b] := by
  unfold jsSplit
  rw [splitCharAux_append_sep sep a.data b.data [] ha,
      splitCharAux_no_sep sep b.data [] hb]
  cases a with
  | mk la =>
    cases b with
    | mk lb => simp

/-- Claim C10 counterexample: a successful rev-list whose unparseable
output contains no tab yields behind 0 but leaves ahead undefined — the
destructuring `[behind, ahead]` of a one-element array — so the result is
not `{ahead: 0, behind: 0}`. -/
theorem getBranchDivergence_counterexample :
    divGarbageEnv.revListOk = true ∧
    jsParseInt divGarbageEnv.revListOut = none ∧
    (getBranchDivergence divGarbageEnv).behind = some 0 ∧
    (getBranchDivergence divGarbageEnv).ahead = none ∧
    (getBranchDivergence divGarbageEnv).ahead ≠ some 0 := by
  decide

/-- Claim C10 (amended): a failed or throwing rev-list query answers
`{ahead: 0, behind: 0}` — indistinguishable from a fully merged branch —
and a successful query whose tab-separated fields are both unparseable
also answers `{ahead: 0, behind: 0}`; only a successful output lacking the
tab separator leaves the ahead field undefined instead of 0. -/
theorem getBranchDivergence_degrades (e : DivEnv) :
    (e.throws = true →
      getBranchDivergence e = { ahead := some 0, behind := some 0 }) ∧
    (e.throws = false → e.revListOk = false →
      getBranchDivergence e = { ahead := some 0, behind := some 0 }) ∧
    (∀ a b : String, e.throws = false → e.revListOk = true →
      e.revListOut = String.mk (a.data ++ '\t' :: b.data) →
      jsParseInt a = none → jsParseInt b = none →
      '\t' ∉ a.data → '\t' ∉ b.data →
      getBranchDivergence e = { ahead := some 0, behind := some 0 }) := by
  refine ⟨?_, ?_, ?_⟩
  · intro h
    simp [getBranchDivergence, h]
  · intro ht h
    simp [getBranchDivergence, ht, h]
  · intro a b ht hok hout hpa hpb hta htb
    simp only [getBranchDivergence, ht, hok]
    rw [hout, jsSplit_two_fields '\t' a b hta htb]
    simp [jsParseIntOr0, hpa, hpb]

/-- Witness for `getBranchDivergence_degrades`: successful output `x TAB y`
with both fields unparseable. -/
theorem getBranchDivergence_degrades_witness :
    divTabEnv.revListOut = String.mk (("x").data ++ '\t' :: ("y").data) ∧
    getBranchDivergence divTabEnv = { ahead := some 0, behind := some 0 } := by
  refine ⟨by decide, ?_⟩
  exact (getBranchDivergence_degrades divTabEnv).2.2 "x" "y" rfl rfl
    (by decide) (by decide) (by decide) (by decide) (by decide)

/-! ### Stable sort lemmas -/

theorem insertByDateDesc_perm (x : BranchDate) (l : List BranchDate) :
    List.Perm (insertByDateDesc x l) (x :: l) := by
  induction l with
  | nil => exact List.Perm.refl _
  | cons y ys ih =>
    unfold insertByDateDesc
    by_cases h : y.date ≤ x.date
    · rw [if_pos h]
    · rw [if_neg h]
      exact (ih.cons y).trans (List.Perm.swap x y ys)

theorem sortByDateDesc_perm (l : List BranchDate) :
    List.Perm (sortByDateDesc l) l := by
  induction l with
  | nil => exact List.Perm.refl _
  | cons x xs ih =>
    exact (insertByDateDesc_perm x (sortByDateDesc xs)).trans (ih.cons x)

theorem insertByDateDesc_pairwise (x : BranchDate) (l : List BranchDate)
    (hp : l.Pairwise branchBefore)
    (hx : ∀ y ∈ l, nameLt x.branch y.branch = true) :
    (insertByDateDesc x l).Pairwise branchBefore := by
  induction l with
  | nil => simp [insertByDateDesc]
  | cons y ys ih =>
    rw [List.pairwise_cons] at hp
    obtain ⟨hy, hys⟩ := hp
    unfold insertByDateDesc
    by_cases h : y.date ≤ x.date
    · rw [if_pos h]
      refine List.Pairwise.cons ?_ (List.Pairwise.cons hy hys)
      intro z hz
      rcases List.mem_cons.mp hz with rfl | hz'
      · rcases Nat.eq_or_lt_of_le h with heq | hlt
        · exact Or.inr ⟨heq.symm, hx z (List.mem_cons_self z ys)⟩
        · exact Or.inl hlt
      · rcases hy z hz' with hlt | ⟨heq, _⟩
        · exact Or.inl (Nat.lt_of_lt_of_le hlt h)
        · rcases Nat.eq_or_lt_of_le h with heq2 | hlt2
          · exact Or.inr ⟨by omega, hx z (List.mem_cons_of_mem y hz')⟩
          · exact Or.inl (by omega)
    · rw [if_neg h]
      have hxlt : x.date < y.date := Nat.lt_of_not_le h
      refine List.Pairwise.cons ?_
        (ih hys (fun z hz => hx z (List.mem_cons_of_mem y hz)))
      intro z hz
      have hz2 : z = x ∨ z ∈ ys :=
        List.mem_cons.mp ((insertByDateDesc_perm x ys).mem_iff.mp hz)
      rcases hz2 with rfl | hz'
      · exact Or.inl hxlt
      · exact hy z hz'

theorem sortByDateDesc_pairwise (l : List BranchDate)
    (hl : l.Pairwise (fun x y => nameLt x.branch y.branch = true)) :
    (sortByDateDesc l).Pairwise branchBefore := by
  induction l with
  | nil => exact List.Pairwise.nil
  | cons x xs ih =>
    rw [List.pairwise_cons] at hl
    obtain ⟨hx, hxs⟩ := hl
    unfold sortByDateDesc
    refine insertByDateDesc_pairwise x (sortByDateDesc xs) (ih hxs) ?_
    intro y hy
    exact hx y ((sortByDateDesc_perm xs).mem_iff.mp hy)

theorem sort_map_branch_pairwise (st : RemoteRepoState) (l : List BranchDate)
    (hmem : ∀ p ∈ l, p.date = dateOf st p.branch)
    (hpw : l.Pairwise (fun x y => nameLt x.branch y.branch = true)) :
    ((sortByDateDesc l).map (fun x => x.branch)).Pairwise
      (fun a b => dateOf st b ≤ dateOf st a ∧
        (dateOf st a = dateOf st b → nameLt a b = true)) := by
  rw [List.pairwise_map]
  refine (sortByDateDesc_pairwise l hpw).imp_of_mem ?_
  intro p q hp hq hpq
  have hpd : p.date = dateOf st p.branch :=
    hmem p ((sortByDateDesc_perm l).mem_iff.mp hp)
  have hqd : q.date = dateOf st q.branch :=
    hmem q ((sortByDateDesc_perm l).mem_iff.mp hq)
  rcases hpq with hlt | ⟨heq, hname⟩
  · exact ⟨by omega, fun hc => absurd hc (by omega)⟩
  · exact ⟨by omega, fun _ => hname⟩

theorem mem_sort_map_branch (l : List String) (f : String → Nat) (r : String) :
    (r ∈ (sortByDateDesc (l.map (fun b => BranchDate.mk b (f b)))).map
      (fun x => x.branch)) ↔ r ∈ l := by
  rw [List.Perm.mem_iff ((sortByDateDesc_perm _).map _)]
  simp

/-! ### Changeset resolver claims -/

/-- Claim C1 counterexample: the local changeset `changeset/feature-a`
tracks `origin/feature/new-ui`, yet `origin/feature/new-ui` is still
returned among the unsynced remote branches, because the subtraction
compares stripped branch names against local branch names and never
consults tracking branches. -/
theorem getUnsyncedRemoteBranches_tracking_counterexample :
    ("changeset/feature-a", some "origin/feature/new-ui") ∈
      localChangesets trackedRemoteState ∧
    "origin/feature/new-ui" ∈ getUnsyncedRemoteBranches trackedRemoteState := by
  decide

/-- Claim C1 (amended): the unsynced list consists exactly of the non-empty
remote branch lines not containing `HEAD` whose name with one leading
`origin/` stripped differs from every non-empty local branch name — the
subtraction is by stripped local branch name, not by tracking-branch
identity. -/
theorem getUnsyncedRemoteBranches_byName (st : RemoteRepoState)
    (ht : st.throws = false) (hr : st.remoteOk = true) (hl : st.localOk = true)
    (r : String) :
    r ∈ getUnsyncedRemoteBranches st ↔
      (r ∈ st.remoteLines ∧ ¬ r = "" ∧ containsHEAD r = false ∧
       ∀ b ∈ st.localLines, ¬ b = "" → ¬ stripPrefixOnce "origin/" r = b) := by
  simp only [getUnsyncedRemoteBranches, ht, hr, hl, Bool.false_eq_true,
    if_false, Bool.not_true, Bool.not_false, if_true, ite_false, ite_true]
  rw [mem_sort_map_branch]
  simp [List.mem_filter, and_assoc]
  intro _hmemr
  constructor
  · rintro ⟨h1, h2, h3⟩
    refine ⟨h2, h3, ?_⟩
    intro b hb hbne heq
    cases h1 with
    | inl hnm =>
        refine hnm ?_
        rw [heq]
        exact hb
    | inr hempty => exact hbne (heq ▸ hempty)
  · rintro ⟨h2, h3, h4⟩
    refine ⟨?_, h2, h3⟩
    by_cases hstrip : stripPrefixOnce "origin/" r = ""
    · exact Or.inr hstrip
    · refine Or.inl ?_
      intro hmem2
      exact h4 _ hmem2 hstrip rfl

/-- Witness for `getUnsyncedRemoteBranches_byName`: the membership
characterization evaluated at a repository where `origin/alpha` is synced
locally and `origin/hotfix` is not. -/
theorem getUnsyncedRemoteBranches_byName_witness :
    ("origin/hotfix" ∈ getUnsyncedRemoteBranches remoteStateW ↔
      ("origin/hotfix" ∈ remoteStateW.remoteLines ∧
       ¬ ("origin/hotfix" : String) = "" ∧
       containsHEAD "origin/hotfix" = false ∧
       ∀ b ∈ remoteStateW.localLines, ¬ b = "" →
         ¬ stripPrefixOnce "origin/" "origin/hotfix" = b)) ∧
    "origin/hotfix" ∈ getUnsyncedRemoteBranches remoteStateW :=
  ⟨getUnsyncedRemoteBranches_byName remoteStateW rfl rfl rfl "origin/hotfix",
   by decide⟩

/-- Claim C7: when the remote branch lines arrive in ascending name order
(the order `git branch -r` emits), the resolver output is sorted descending
by the computed commit date, and any two branches with equal dates appear
in ascending name order. -/
theorem getUnsyncedRemoteBranches_sorted (st : RemoteRepoState)
    (ht : st.throws = false) (hr : st.remoteOk = true) (hl : st.localOk = true)
    (hnames : st.remoteLines.Pairwise (fun a b => nameLt a b = true)) :
    (getUnsyncedRemoteBranches st).Pairwise
      (fun a b => dateOf st b ≤ dateOf st a ∧
        (dateOf st a = dateOf st b → nameLt a b = true)) := by
  simp only [getUnsyncedRemoteBranches, ht, hr, hl, Bool.false_eq_true,
    if_false, Bool.not_true, Bool.not_false, if_true, ite_false, ite_true]
  refine sort_map_branch_pairwise st _ ?_ ?_
  · intro p hp
    obtain ⟨b, hb, rfl⟩ := List.mem_map.mp hp
    rfl
  · rw [List.pairwise_map]
    exact ((hnames.filter _).filter _).imp (fun h => h)

/-- Witness for `getUnsyncedRemoteBranches_sorted`: two unsynced remote
branches with equal commit timestamps stay in ascending name order. -/
theorem getUnsyncedRemoteBranches_sorted_witness :
    remoteTieState.remoteLines.Pairwise (fun a b => nameLt a b = true) ∧
    (getUnsyncedRemoteBranches remoteTieState).Pairwise
      (fun a b => dateOf remoteTieState b ≤ dateOf remoteTieState a ∧
        (dateOf remoteTieState a = dateOf remoteTieState b →
          nameLt a b = true)) :=
  ⟨by decide,
   getUnsyncedRemoteBranches_sorted remoteTieState rfl rfl rfl (by decide)⟩

end Phastos
